import Mathlib

/-
Shallow embedding of the sims-far FAR archive reader (src/src/lib.rs).

The backing file is modelled as a list of bytes (`List Nat`, each element a
byte value); the file cursor of the Rust `File` handle is threaded explicitly
as a position argument. Fallible operations return `Except FarError`, where
`FarError.fileError` stands for the `io::Error` variants (open, seek,
short read / UnexpectedEof) and `FarError.utf8Error` for `Utf8Error` from
`std::str::from_utf8`. Rust strings are kept as their validated byte lists.
-/

namespace SimsFar

/-- Error type, collapsing the payload-carrying variants of the Rust
`FarError` enum to the two kinds the parser can actually produce:
I/O failures and UTF-8 decoding failures. -/
inductive FarError where
  | fileError
  | utf8Error
deriving DecidableEq, Repr

/-- A UTF-8 continuation byte: 0x80 to 0xBF. -/
def isCont (b : Nat) : Bool := 128 ≤ b && b < 192

/-- UTF-8 validity of a byte sequence, following the validation performed by
`std::str::from_utf8` (core::str run_utf8_validation): ASCII, 2-byte
sequences C2..DF, 3-byte sequences E0..EF with the E0/ED restrictions
excluding overlong encodings and surrogates, and 4-byte sequences F0..F4
with the F0/F4 restrictions bounding code points at U+10FFFF. -/
def utf8Valid : List Nat → Bool
  | [] => true
  | b :: rest =>
    if b < 128 then utf8Valid rest
    else if b < 194 then false
    else if b ≤ 223 then
      match rest with
      | b1 :: r => isCont b1 && utf8Valid r
      | [] => false
    else if b ≤ 239 then
      match rest with
      | b1 :: b2 :: r =>
        (if b = 224 then 160 ≤ b1 && b1 ≤ 191
         else if b = 237 then 128 ≤ b1 && b1 ≤ 159
         else isCont b1) && isCont b2 && utf8Valid r
      | _ => false
    else if b ≤ 244 then
      match rest with
      | b1 :: b2 :: b3 :: r =>
        (if b = 240 then 144 ≤ b1 && b1 ≤ 191
         else if b = 244 then 128 ≤ b1 && b1 ≤ 143
         else isCont b1) && isCont b2 && isCont b3 && utf8Valid r
      | _ => false
    else false

/-- `u32::from_le_bytes`: little-endian interpretation of a byte list
(least significant byte first). -/
def leU32 (bs : List Nat) : Nat := bs.foldr (fun b acc => b + 256 * acc) 0

/-- Model of `f.seek(Start(pos))` followed by `f.read_exact(&mut buf)` for a
buffer of length `n` over a file with contents `file`. Per the Rust
documentation: seeking beyond end-of-file is allowed; `read_exact` with an
empty buffer is a no-op that succeeds; otherwise it fills the buffer exactly
when enough bytes remain and fails with an UnexpectedEof `io::Error` on a
short read. -/
def readExact (file : List Nat) (pos n : Nat) : Except FarError (List Nat) :=
  if n = 0 then Except.ok []
  else if pos + n ≤ file.length then Except.ok ((file.drop pos).take n)
  else Except.error FarError.fileError

/-- `ManifestEntry` from src/src/lib.rs. The `file_path` back-reference is
not modelled as a field: extraction takes the contents of the backing file
directly. `file_name` holds the validated UTF-8 bytes of the Rust `&str`. -/
structure ManifestEntry where
  file_length1 : Nat
  file_length2 : Nat
  file_offset : Nat
  file_name_length : Nat
  file_name : List Nat
deriving DecidableEq, Repr

/-- `Manifest` from src/src/lib.rs. -/
structure Manifest where
  number_of_files : Nat
  manifest_entries : List ManifestEntry
deriving DecidableEq, Repr

/-- `Far` from src/src/lib.rs. `signature` holds the validated UTF-8 bytes
of the Rust `&str`. -/
structure Far where
  signature : List Nat
  version : Nat
  manifest_offset : Nat
  manifest : Manifest
deriving DecidableEq, Repr

/-- `ManifestEntry::get_bytes`: open the backing file, allocate a buffer of
`file_length1` bytes, seek to `file_offset`, `read_exact` into the buffer. -/
def get_bytes (file : List Nat) (e : ManifestEntry) : Except FarError (List Nat) :=
  readExact file e.file_offset e.file_length1

/-- `parse_manifest_entry`: from the current cursor position `pos`, read four
little-endian u32 fields (file_length1, file_length2, file_offset,
file_name_length), then exactly file_name_length name bytes, decoded as
UTF-8. Returns the entry together with the cursor position after it. -/
def parse_manifest_entry (file : List Nat) (pos : Nat) :
    Except FarError (ManifestEntry × Nat) :=
  match readExact file pos 4 with
  | Except.error err => Except.error err
  | Except.ok l1 =>
  match readExact file (pos + 4) 4 with
  | Except.error err => Except.error err
  | Except.ok l2 =>
  match readExact file (pos + 8) 4 with
  | Except.error err => Except.error err
  | Except.ok off =>
  match readExact file (pos + 12) 4 with
  | Except.error err => Except.error err
  | Except.ok nl =>
  match readExact file (pos + 16) (leU32 nl) with
  | Except.error err => Except.error err
  | Except.ok nameBytes =>
    if utf8Valid nameBytes then
      Except.ok (⟨leU32 l1, leU32 l2, leU32 off, leU32 nl, nameBytes⟩,
        pos + 16 + leU32 nl)
    else Except.error FarError.utf8Error

/-- The entry-reading loop of `parse_far`: parse `n` consecutive manifest
entries starting at cursor position `pos`, each entry beginning where the
previous one ended (no seeking between entries). -/
def parseEntries (file : List Nat) : Nat → Nat → Except FarError (List ManifestEntry)
  | _, 0 => Except.ok []
  | pos, Nat.succ n =>
    match parse_manifest_entry file pos with
    | Except.error err => Except.error err
    | Except.ok epos =>
    match parseEntries file epos.2 n with
    | Except.error err => Except.error err
    | Except.ok es => Except.ok (epos.1 :: es)

/-- `parse_far` (also `Far::new`): read 8 signature bytes from offset 0 and
decode as UTF-8 (validation only, no comparison against a literal), read
version and manifest_offset as little-endian u32, seek to manifest_offset,
read number_of_files, then parse that many entries back-to-back. -/
def parse_far (file : List Nat) : Except FarError Far :=
  match readExact file 0 8 with
  | Except.error err => Except.error err
  | Except.ok sigBytes =>
    if utf8Valid sigBytes then
      match readExact file 8 4 with
      | Except.error err => Except.error err
      | Except.ok verBytes =>
      match readExact file 12 4 with
      | Except.error err => Except.error err
      | Except.ok offBytes =>
      match readExact file (leU32 offBytes) 4 with
      | Except.error err => Except.error err
      | Except.ok cntBytes =>
      match parseEntries file (leU32 offBytes + 4) (leU32 cntBytes) with
      | Except.error err => Except.error err
      | Except.ok es =>
        Except.ok ⟨sigBytes, leU32 verBytes, leU32 offBytes, ⟨leU32 cntBytes, es⟩⟩
    else Except.error FarError.utf8Error

/-- The bytes of the literal signature "FAR!byAZ". -/
def farSignatureBytes : List Nat := [70, 65, 82, 33, 98, 121, 65, 90]

/-- A concrete well-formed archive: signature "FAR!byAZ", version 1,
manifest at offset 16 declaring one entry (lengths 2, body offset 8,
name length 1, name "a"). -/
def goodFile : List Nat :=
  [70, 65, 82, 33, 98, 121, 65, 90,
   1, 0, 0, 0,
   16, 0, 0, 0,
   1, 0, 0, 0,
   2, 0, 0, 0,
   2, 0, 0, 0,
   8, 0, 0, 0,
   1, 0, 0, 0,
   97]

/-- The parse result of `goodFile`. -/
def goodFar : Far := ⟨[70, 65, 82, 33, 98, 121, 65, 90], 1, 16, ⟨1, [⟨2, 2, 8, 1, [97]⟩]⟩⟩

/-- A concrete archive whose signature is "XXXXXXXX" (not the literal tag)
and whose version is 7 (not 1), with an empty manifest at offset 16. -/
def badFile : List Nat :=
  [88, 88, 88, 88, 88, 88, 88, 88,
   7, 0, 0, 0,
   16, 0, 0, 0,
   0, 0, 0, 0]

/-- The parse result of `badFile`. -/
def badFar : Far := ⟨[88, 88, 88, 88, 88, 88, 88, 88], 7, 16, ⟨0, []⟩⟩

/-- A header claiming a manifest offset of 255 in a 16-byte file. -/
def eofFile : List Nat :=
  [65, 65, 65, 65, 65, 65, 65, 65,
   1, 0, 0, 0,
   255, 0, 0, 0]

theorem readExact_ok_of_le (file : List Nat) (pos n : Nat) (h : pos + n ≤ file.length) :
    readExact file pos n = Except.ok ((file.drop pos).take n) := by
  unfold readExact
  by_cases hn : n = 0
  · subst hn; simp
  · rw [if_neg hn, if_pos h]

theorem readExact_zero (file : List Nat) (pos : Nat) :
    readExact file pos 0 = Except.ok [] := by
  unfold readExact
  simp

theorem readExact_short (file : List Nat) (pos n : Nat) (hn : n ≠ 0)
    (h : file.length < pos + n) :
    readExact file pos n = Except.error FarError.fileError := by
  unfold readExact
  rw [if_neg hn, if_neg (by omega)]

theorem readExact_ok_bytes (file : List Nat) (pos n : Nat) (bs : List Nat)
    (h : readExact file pos n = Except.ok bs) : bs = (file.drop pos).take n := by
  unfold readExact at h
  split at h
  · next hn => injection h with h; subst hn; simp [h.symm]
  · split at h
    · injection h with h; exact h.symm
    · exact absurd h (by simp)

theorem readExact_ok_length (file : List Nat) (pos n : Nat) (bs : List Nat)
    (h : readExact file pos n = Except.ok bs) : bs.length = n := by
  unfold readExact at h
  split at h
  · next hn => injection h with h; subst hn; simp [h.symm]
  · split at h
    · next hle => injection h with h; subst h; simp; omega
    · exact absurd h (by simp)

theorem parse_manifest_entry_ok_name (file : List Nat) (pos : Nat) (me : ManifestEntry)
    (pos2 : Nat) (h : parse_manifest_entry file pos = Except.ok (me, pos2)) :
    utf8Valid me.file_name = true := by
  unfold parse_manifest_entry at h
  split at h
  · exact absurd h (by simp)
  · split at h
    · exact absurd h (by simp)
    · split at h
      · exact absurd h (by simp)
      · split at h
        · exact absurd h (by simp)
        · next nl h4 =>
          split at h
          · exact absurd h (by simp)
          · next nameBytes h5 =>
            split at h
            · next hvalid =>
              injection h with h
              rw [Prod.mk.injEq] at h
              obtain ⟨hme, hpos⟩ := h
              rw [← hme]
              exact hvalid
            · exact absurd h (by simp)

theorem parseEntries_length (file : List Nat) (n : Nat) :
    ∀ pos es, parseEntries file pos n = Except.ok es → es.length = n := by
  induction n with
  | zero =>
    intro pos es h
    simp only [parseEntries] at h
    injection h with h
    subst h
    rfl
  | succ n ih =>
    intro pos es h
    simp only [parseEntries] at h
    split at h
    · exact absurd h (by simp)
    · next epos hentry =>
      split at h
      · exact absurd h (by simp)
      · next es2 hrest =>
        injection h with h
        subst h
        simp [ih _ _ hrest]

theorem parseEntries_names (file : List Nat) (n : Nat) :
    ∀ pos es, parseEntries file pos n = Except.ok es →
      ∀ e ∈ es, utf8Valid e.file_name = true := by
  induction n with
  | zero =>
    intro pos es h
    simp only [parseEntries] at h
    injection h with h
    subst h
    intro e he
    exact absurd he (by simp)
  | succ n ih =>
    intro pos es h
    simp only [parseEntries] at h
    split at h
    · exact absurd h (by simp)
    · next epos hentry =>
      split at h
      · exact absurd h (by simp)
      · next es2 hrest =>
        injection h with h
        subst h
        intro e he
        rcases List.mem_cons.mp he with he | he
        · subst he
          exact parse_manifest_entry_ok_name file pos epos.1 epos.2 hentry
        · exact ih _ _ hrest e he

theorem parse_far_ok_inv (file : List Nat) (far : Far)
    (h : parse_far file = Except.ok far) :
    ∃ sigBytes verBytes offBytes cntBytes es,
      readExact file 0 8 = Except.ok sigBytes ∧ utf8Valid sigBytes = true ∧
      readExact file 8 4 = Except.ok verBytes ∧
      readExact file 12 4 = Except.ok offBytes ∧
      readExact file (leU32 offBytes) 4 = Except.ok cntBytes ∧
      parseEntries file (leU32 offBytes + 4) (leU32 cntBytes) = Except.ok es ∧
      far = ⟨sigBytes, leU32 verBytes, leU32 offBytes, ⟨leU32 cntBytes, es⟩⟩ := by
  unfold parse_far at h
  split at h
  · exact absurd h (by simp)
  · next sigBytes hsig =>
    split at h
    · next hvalid =>
      split at h
      · exact absurd h (by simp)
      · next verBytes hver =>
        split at h
        · exact absurd h (by simp)
        · next offBytes hoff =>
          split at h
          · exact absurd h (by simp)
          · next cntBytes hcnt =>
            split at h
            · exact absurd h (by simp)
            · next es hes =>
              injection h with h
              exact ⟨sigBytes, verBytes, offBytes, cntBytes, es, hsig, hvalid,
                hver, hoff, hcnt, hes, h.symm⟩
    · exact absurd h (by simp)

/-- Claim C1: a successful extraction returns exactly file_length1 bytes, and
the value of file_length2 plays no role in extraction: replacing it by any
value leaves the result of get_bytes unchanged. -/
theorem get_bytes_length_primary (file : List Nat) (e : ManifestEntry) (bs : List Nat)
    (l2 : Nat) (h : get_bytes file e = Except.ok bs) :
    bs.length = e.file_length1 ∧
    get_bytes file ⟨e.file_length1, l2, e.file_offset, e.file_name_length, e.file_name⟩ =
      Except.ok bs :=
  ⟨readExact_ok_length file e.file_offset e.file_length1 bs h, h⟩

/-- Witness for C1 at a concrete entry over a concrete backing file. -/
theorem get_bytes_length_primary_witness :
    ([2, 3] : List Nat).length = (⟨2, 9, 1, 0, []⟩ : ManifestEntry).file_length1 ∧
    get_bytes [1, 2, 3] ⟨2, 5, 1, 0, []⟩ = Except.ok [2, 3] :=
  get_bytes_length_primary [1, 2, 3] ⟨2, 9, 1, 0, []⟩ [2, 3] 5 rfl

/-- Claim C9: extraction is deterministic. Two calls to get_bytes on the same
entry over the same backing file contents return identical byte lists. -/
theorem get_bytes_deterministic (file : List Nat) (e : ManifestEntry) (b1 b2 : List Nat)
    (h1 : get_bytes file e = Except.ok b1) (h2 : get_bytes file e = Except.ok b2) :
    b1 = b2 := by
  rw [h1] at h2
  injection h2

/-- Witness for C9: two extractions of the entry of `goodFile` agree. -/
theorem get_bytes_deterministic_witness : ([1, 0] : List Nat) = [1, 0] :=
  get_bytes_deterministic goodFile ⟨2, 2, 8, 1, [97]⟩ [1, 0] [1, 0] rfl rfl

/-- Claim C10: an entry with file_length1 = 0 extracts successfully to the
empty byte list, whatever its file_offset and whatever the backing file:
the seek succeeds even beyond end-of-file and the zero-length read_exact is
a no-op. -/
theorem get_bytes_zero_length (file : List Nat) (e : ManifestEntry)
    (h : e.file_length1 = 0) : get_bytes file e = Except.ok [] := by
  unfold get_bytes
  rw [h]
  exact readExact_zero file e.file_offset

/-- Witness for C10: a zero-length entry with offset 1000 over an empty
backing file extracts to the empty byte list. -/
theorem get_bytes_zero_length_witness :
    get_bytes [] ⟨0, 0, 1000, 0, []⟩ = Except.ok [] :=
  get_bytes_zero_length [] ⟨0, 0, 1000, 0, []⟩ rfl

/-- Counterexample to C7 as stated: the entry with file_length1 = 0 and
file_offset = 5 over an empty backing file has a byte range ending at
5 + 0 = 5, past the end of the 0-byte file, yet get_bytes succeeds with an
empty buffer instead of returning an error. -/
theorem get_bytes_range_check_cex :
    ([] : List Nat).length <
      (⟨0, 0, 5, 0, []⟩ : ManifestEntry).file_offset +
        (⟨0, 0, 5, 0, []⟩ : ManifestEntry).file_length1 ∧
    get_bytes [] ⟨0, 0, 5, 0, []⟩ = Except.ok [] :=
  ⟨by decide, rfl⟩

/-- Claim C7 amended: for every entry with file_length1 > 0 whose byte range
(file_offset to file_offset + file_length1) extends past the end of the
backing file, get_bytes returns an I/O error and never a truncated buffer;
when file_length1 = 0 the read is a no-op and succeeds with an empty buffer. -/
theorem get_bytes_range_check (file : List Nat) (e : ManifestEntry)
    (hpos : 0 < e.file_length1)
    (h : file.length < e.file_offset + e.file_length1) :
    get_bytes file e = Except.error FarError.fileError := by
  unfold get_bytes
  exact readExact_short file e.file_offset e.file_length1 (by omega) h

/-- Witness for the amended C7: a one-byte entry at offset 0 of an empty
backing file fails to extract. -/
theorem get_bytes_range_check_witness :
    get_bytes [] ⟨1, 1, 0, 0, []⟩ = Except.error FarError.fileError :=
  get_bytes_range_check [] ⟨1, 1, 0, 0, []⟩ (by decide) (by decide)

/-- Claim C2: a successful parse returns exactly as many manifest entries as
the manifest declares: the entry list has length number_of_files,
number_of_files is the little-endian u32 stored at manifest_offset, and the
entry list is exactly the sequence obtained by parsing entries back-to-back
from manifest_offset + 4 (on-disk order). -/
theorem parse_far_entry_count (file : List Nat) (far : Far)
    (h : parse_far file = Except.ok far) :
    far.manifest.manifest_entries.length = far.manifest.number_of_files ∧
    far.manifest.number_of_files = leU32 ((file.drop far.manifest_offset).take 4) ∧
    parseEntries file (far.manifest_offset + 4) far.manifest.number_of_files =
      Except.ok far.manifest.manifest_entries := by
  obtain ⟨sigBytes, verBytes, offBytes, cntBytes, es, hsig, hvalid, hver, hoff, hcnt,
    hes, hfar⟩ := parse_far_ok_inv file far h
  subst hfar
  refine ⟨parseEntries_length file _ _ _ hes, ?_, hes⟩
  show leU32 cntBytes = _
  rw [readExact_ok_bytes _ _ _ _ hcnt]

/-- Witness for C2 at the concrete well-formed archive `goodFile`. -/
theorem parse_far_entry_count_witness :
    goodFar.manifest.manifest_entries.length = goodFar.manifest.number_of_files ∧
    goodFar.manifest.number_of_files =
      leU32 ((goodFile.drop goodFar.manifest_offset).take 4) ∧
    parseEntries goodFile (goodFar.manifest_offset + 4) goodFar.manifest.number_of_files =
      Except.ok goodFar.manifest.manifest_entries :=
  parse_far_entry_count goodFile goodFar rfl

/-- Claim C3: the parser stores the signature and version exactly as read
from the file, and performs no comparison against the literal tag or the
expected version: in particular `badFile`, whose signature is not
"FAR!byAZ" and whose version is 7, parses successfully. -/
theorem parse_far_permissive (file : List Nat) (far : Far)
    (h : parse_far file = Except.ok far) :
    (far.signature = file.take 8 ∧ far.version = leU32 ((file.drop 8).take 4)) ∧
    (badFile.take 8 ≠ farSignatureBytes ∧ badFar.version ≠ 1 ∧
      parse_far badFile = Except.ok badFar) := by
  obtain ⟨sigBytes, verBytes, offBytes, cntBytes, es, hsig, hvalid, hver, hoff, hcnt,
    hes, hfar⟩ := parse_far_ok_inv file far h
  subst hfar
  refine ⟨⟨?_, ?_⟩, by decide, by decide, rfl⟩
  · show sigBytes = file.take 8
    rw [readExact_ok_bytes _ _ _ _ hsig]
    simp
  · show leU32 verBytes = _
    rw [readExact_ok_bytes _ _ _ _ hver]

/-- Witness for C3 at the mismatched-signature archive `badFile`. -/
theorem parse_far_permissive_witness :
    (badFar.signature = badFile.take 8 ∧
      badFar.version = leU32 ((badFile.drop 8).take 4)) ∧
    (badFile.take 8 ≠ farSignatureBytes ∧ badFar.version ≠ 1 ∧
      parse_far badFile = Except.ok badFar) :=
  parse_far_permissive badFile badFar rfl

/-- Counterexample to C4 as stated: `badFile` begins with "XXXXXXXX", which
differs from the literal tag "FAR!byAZ", yet parse succeeds rather than
failing. -/
theorem parse_far_signature_cex :
    badFile.take 8 ≠ farSignatureBytes ∧ parse_far badFile = Except.ok badFar :=
  ⟨by decide, rfl⟩

/-- Claim C4 amended: a signature mismatch does not cause a parse failure;
the parser performs no comparison against the literal tag and any
successfully parsed archive stores its first 8 bytes verbatim as the
signature, whether or not they equal "FAR!byAZ". -/
theorem parse_far_signature_stored (file : List Nat) (far : Far)
    (h : parse_far file = Except.ok far) : far.signature = file.take 8 := by
  obtain ⟨sigBytes, verBytes, offBytes, cntBytes, es, hsig, hvalid, hver, hoff, hcnt,
    hes, hfar⟩ := parse_far_ok_inv file far h
  subst hfar
  show sigBytes = file.take 8
  rw [readExact_ok_bytes _ _ _ _ hsig]
  simp

/-- Witness for the amended C4 at `badFile`. -/
theorem parse_far_signature_stored_witness : badFar.signature = badFile.take 8 :=
  parse_far_signature_stored badFile badFar rfl

/-- Claim C5: when the header declares a manifest_offset beyond the end of
the file, parse never returns an archive; moreover when the 16-byte header
itself is present and the signature bytes are valid UTF-8, the failure is
precisely the I/O short-read error produced by the read at
manifest_offset. -/
theorem parse_far_offset_beyond_eof (file : List Nat)
    (h : file.length < leU32 ((file.drop 12).take 4)) :
    (∀ far, parse_far file ≠ Except.ok far) ∧
    (utf8Valid (file.take 8) = true → 16 ≤ file.length →
      parse_far file = Except.error FarError.fileError) := by
  constructor
  · intro far hok
    obtain ⟨sigBytes, verBytes, offBytes, cntBytes, es, hsig, hvalid, hver, hoff, hcnt,
      hes, hfar⟩ := parse_far_ok_inv file far hok
    have hob := readExact_ok_bytes _ _ _ _ hoff
    have hshort : readExact file (leU32 offBytes) 4 = Except.error FarError.fileError :=
      readExact_short _ _ _ (by omega) (by rw [hob]; omega)
    rw [hshort] at hcnt
    exact absurd hcnt (by simp)
  · intro hsigvalid hlen
    unfold parse_far
    rw [readExact_ok_of_le file 0 8 (by omega)]
    dsimp only
    rw [List.drop_zero, hsigvalid]
    rw [if_pos rfl]
    rw [readExact_ok_of_le file 8 4 (by omega)]
    dsimp only
    rw [readExact_ok_of_le file 12 4 (by omega)]
    dsimp only
    rw [readExact_short file (leU32 ((file.drop 12).take 4)) 4 (by omega) (by omega)]

/-- Witness for C5 at `eofFile`, a 16-byte file declaring manifest offset
255. -/
theorem parse_far_offset_beyond_eof_witness :
    parse_far eofFile = Except.error FarError.fileError :=
  (parse_far_offset_beyond_eof eofFile (by decide)).2 (by decide) (by decide)

/-- Claim C6: when the name bytes of an entry record are present in the file
but are not valid UTF-8, parsing that entry fails with the encoding error
(never a lossy decode); consequently every entry of a successfully parsed
archive carries a valid-UTF-8 name. -/
theorem parse_entry_name_not_utf8 (file : List Nat) (pos n : Nat)
    (hn : n = leU32 ((file.drop (pos + 12)).take 4))
    (hfit : pos + 16 + n ≤ file.length)
    (hbad : utf8Valid ((file.drop (pos + 16)).take n) = false) :
    parse_manifest_entry file pos = Except.error FarError.utf8Error ∧
    ∀ far, parse_far file = Except.ok far →
      ∀ e ∈ far.manifest.manifest_entries, utf8Valid e.file_name = true := by
  constructor
  · unfold parse_manifest_entry
    rw [readExact_ok_of_le file pos 4 (by omega)]
    dsimp only
    rw [readExact_ok_of_le file (pos + 4) 4 (by omega)]
    dsimp only
    rw [readExact_ok_of_le file (pos + 8) 4 (by omega)]
    dsimp only
    rw [readExact_ok_of_le file (pos + 12) 4 (by omega)]
    dsimp only
    rw [← hn]
    rw [readExact_ok_of_le file (pos + 16) n (by omega)]
    dsimp only
    rw [hbad]
    simp
  · intro far hok
    obtain ⟨sigBytes, verBytes, offBytes, cntBytes, es, hsig, hvalid, hver, hoff, hcnt,
      hes, hfar⟩ := parse_far_ok_inv file far hok
    subst hfar
    exact parseEntries_names file _ _ _ hes

/-- Witness for C6: an entry record whose single name byte is 0xFF fails to
parse with the encoding error. -/
theorem parse_entry_name_not_utf8_witness :
    parse_manifest_entry [0, 0, 0, 0, 0, 0, 0, 0, 0, 0, 0, 0, 1, 0, 0, 0, 255] 0 =
      Except.error FarError.utf8Error :=
  (parse_entry_name_not_utf8 [0, 0, 0, 0, 0, 0, 0, 0, 0, 0, 0, 0, 1, 0, 0, 0, 255] 0 1
    (by decide) (by decide) (by decide)).1

/-- Claim C8: an entry record declaring name_length 0 parses successfully to
an entry with an empty name, the cursor resuming at pos + 16, immediately
after the 16 fixed bytes; a following run of k entries is parsed from
exactly that position. -/
theorem parse_entry_zero_name_length (file : List Nat) (pos k : Nat)
    (hfit : pos + 16 ≤ file.length)
    (hzero : leU32 ((file.drop (pos + 12)).take 4) = 0) :
    parse_manifest_entry file pos =
      Except.ok (⟨leU32 ((file.drop pos).take 4), leU32 ((file.drop (pos + 4)).take 4),
        leU32 ((file.drop (pos + 8)).take 4), 0, []⟩, pos + 16) ∧
    parseEntries file pos (k + 1) =
      Except.map
        (fun es => (⟨leU32 ((file.drop pos).take 4), leU32 ((file.drop (pos + 4)).take 4),
          leU32 ((file.drop (pos + 8)).take 4), 0, []⟩ : ManifestEntry) :: es)
        (parseEntries file (pos + 16) k) := by
  have hentry : parse_manifest_entry file pos =
      Except.ok (⟨leU32 ((file.drop pos).take 4), leU32 ((file.drop (pos + 4)).take 4),
        leU32 ((file.drop (pos + 8)).take 4), 0, []⟩, pos + 16) := by
    unfold parse_manifest_entry
    rw [readExact_ok_of_le file pos 4 (by omega)]
    dsimp only
    rw [readExact_ok_of_le file (pos + 4) 4 (by omega)]
    dsimp only
    rw [readExact_ok_of_le file (pos + 8) 4 (by omega)]
    dsimp only
    rw [readExact_ok_of_le file (pos + 12) 4 (by omega)]
    dsimp only
    rw [hzero]
    rw [readExact_zero file (pos + 16)]
    dsimp only
    simp
    rfl
  refine ⟨hentry, ?_⟩
  show parseEntries file pos (Nat.succ k) = _
  simp only [parseEntries]
  rw [hentry]
  dsimp only
  cases hrest : parseEntries file (pos + 16) k with
  | error err => simp [Except.map]
  | ok es => simp [Except.map]

/-- Witness for C8: a 16-byte record with name_length 0 parses to an entry
with an empty name and resume position 16. -/
theorem parse_entry_zero_name_length_witness :
    parse_manifest_entry [1, 0, 0, 0, 2, 0, 0, 0, 3, 0, 0, 0, 0, 0, 0, 0] 0 =
      Except.ok (⟨1, 2, 3, 0, []⟩, 16) :=
  (parse_entry_zero_name_length [1, 0, 0, 0, 2, 0, 0, 0, 3, 0, 0, 0, 0, 0, 0, 0] 0 0
    (by decide) (by decide)).1

end SimsFar
